import Mathlib

/-
Shallow embedding of the parts of the helix-vendored tree-sitter sources that
the verified properties refer to:

* `src/vendor/tree-sitter/src/wasm/stdlib.c` — the bump allocator used by
  sandboxed external scanners (malloc / calloc / realloc / free / reset_heap,
  with the `Region` header layout and wasm linear-memory growth);
* `src/vendor/tree-sitter/src/tree_cursor.h` — the `TreeCursorStep` result
  enumeration of the cursor step operations;
* `src/vendor/tree-sitter/src/wasm_store.h` — the scanner-instance ABI surface.

The allocator runs on wasm32: pointers and `size_t` are 32 bits wide, so all
address arithmetic is carried out modulo `2 ^ 32`; the wasm linear memory is a
byte array of `pages * 0x10000` bytes addressed from 0.  `sizeof(Region)` is 4
(one 32-bit `size` field followed by the flexible `char data[0]` member), and a
region pointer `p` handed to the scanner points at `data`, i.e. 4 bytes past
the start of its region header.
-/

namespace TreeSitterWasm

/-- Wasm page size, `#define PAGESIZE 0x10000` in stdlib.c. -/
def PAGESIZE : Nat := 0x10000

/-- Heap size ceiling, `#define MAX_HEAP_SIZE (4 * 1024 * 1024)` in stdlib.c. -/
def MAX_HEAP_SIZE : Nat := 4 * 1024 * 1024

/-- Modulus of 32-bit `size_t` / pointer arithmetic on wasm32. -/
def SIZE_T_MOD : Nat := 2 ^ 32

/-- The allocator's global state: the wasm linear memory (current page count,
the engine's page limit used to decide whether `__builtin_wasm_memory_grow`
succeeds, and the byte contents), together with the three static globals
`heap_start`, `heap_end` and `next` of stdlib.c.  Addresses are plain `Nat`s
below `SIZE_T_MOD`; the null pointer is address 0. -/
structure AllocState where
  pages : Nat
  maxPages : Nat
  bytes : Nat → Nat
  heap_start : Nat
  heap_end : Nat
  next : Nat

/-- Read one byte of linear memory (cells hold values below 256; the reduction
mirrors the hardware byte cell). -/
def readByte (f : Nat → Nat) (a : Nat) : Nat := f a % 256

/-- Little-endian read of a 32-bit `size_t` (the `size` field of a `Region`). -/
def readWord (f : Nat → Nat) (a : Nat) : Nat :=
  readByte f a + readByte f (a + 1) * 256 +
    readByte f (a + 2) * 65536 + readByte f (a + 3) * 16777216

/-- Little-endian store of a 32-bit `size_t` at address `a`
(the write `next->size = size` in `malloc`). -/
def writeWord (f : Nat → Nat) (a v : Nat) : Nat → Nat := fun x =>
  if x = a then v % 256
  else if x = a + 1 then v / 256 % 256
  else if x = a + 2 then v / 65536 % 256
  else if x = a + 3 then v / 16777216 % 256
  else f x

/-- The libc `memset(dst, v, n)` on the byte memory. -/
def memset (f : Nat → Nat) (dst v n : Nat) : Nat → Nat := fun x =>
  if dst ≤ x ∧ x < dst + n then v % 256 else f x

/-- The libc `memcpy(dst, src, n)` on the byte memory. -/
def memcpy (f : Nat → Nat) (dst src n : Nat) : Nat → Nat := fun x =>
  if dst ≤ x ∧ x < dst + n then readByte f (src + (x - dst)) else f x

/-- Function `region_for_ptr` of stdlib.c: `((Region *)ptr) - 1`, i.e. `ptr - 4` in
wasm32 pointer arithmetic. -/
def region_for_ptr (ptr : Nat) : Nat := (ptr + (SIZE_T_MOD - 4)) % SIZE_T_MOD

/-- Function `region_after` of stdlib.c: the address just past a region that starts at
`r` and carries `len` data bytes, rounded up to 4-byte alignment —
`(uintptr_t)(self->data + len + 3) & ~0x3` in wasm32 arithmetic. -/
def region_after (r len : Nat) : Nat := (r + 4 + len + 3) % SIZE_T_MOD / 4 * 4

/-- Function `get_heap_end` of stdlib.c: `__builtin_wasm_memory_size(0) * PAGESIZE`. -/
def get_heap_end (s : AllocState) : Nat := s.pages * PAGESIZE

/-- The page count requested by `grow_heap`:
`((size - 1) / PAGESIZE) + 1` in `size_t` arithmetic. -/
def growPages (size : Nat) : Nat :=
  (size + (SIZE_T_MOD - 1)) % SIZE_T_MOD / PAGESIZE + 1

/-- Function `grow_heap` of stdlib.c: request `growPages size` more pages from
`__builtin_wasm_memory_grow`; the grow succeeds exactly when the engine's
page limit `maxPages` is not exceeded. -/
def grow_heap (s : AllocState) (size : Nat) : Bool × AllocState :=
  if s.pages + growPages size ≤ s.maxPages then
    (true, { s with pages := s.pages + growPages size })
  else (false, s)

/-- Function `reset_heap` of stdlib.c: clear out the heap and move it to `a`. -/
def reset_heap (s : AllocState) (a : Nat) : AllocState :=
  { s with heap_start := a, next := a, heap_end := get_heap_end s }

/-- The signed-pointer-difference test
`(char *)region_end - (char *)heap_start > MAX_HEAP_SIZE` of `malloc`:
the `ptrdiff_t` difference is the 32-bit two's-complement value, which is
greater than `MAX_HEAP_SIZE` exactly when it is below `2 ^ 31` as an
unsigned residue and above the ceiling. -/
def heap_limit_exceeded (region_end heap_start : Nat) : Bool :=
  let d := (region_end + (SIZE_T_MOD - heap_start % SIZE_T_MOD)) % SIZE_T_MOD
  decide (d < 2 ^ 31 ∧ d > MAX_HEAP_SIZE)

/-- The tail of `malloc` after the growth check has passed:
`result = &next->data; next->size = size; next = region_end; return result`. -/
def mallocCommit (s : AllocState) (size region_end : Nat) : Option Nat × AllocState :=
  (some ((s.next + 4) % SIZE_T_MOD),
   { s with bytes := writeWord s.bytes s.next size, next := region_end })

/-- Function `malloc` of stdlib.c.  The local `region_end` of the C source is the
expression `region_after s.next size`, written out at each use site. -/
def malloc (s : AllocState) (size : Nat) : Option Nat × AllocState :=
  if region_after s.next size > s.heap_end then
    if heap_limit_exceeded (region_after s.next size) s.heap_start then (none, s)
    else if (grow_heap s size).1 then
      mallocCommit
        { (grow_heap s size).2 with heap_end := get_heap_end (grow_heap s size).2 }
        size (region_after s.next size)
    else (none, s)
  else
    mallocCommit s size (region_after s.next size)

/-- Function `free` of stdlib.c: a no-op unless the freed pointer's region ends exactly
at `next`, in which case `next` is rewound to the start of that region. -/
def free (s : AllocState) (ptr : Nat) : AllocState :=
  if ptr = 0 then s
  else if region_after (region_for_ptr ptr) (readWord s.bytes (region_for_ptr ptr))
      = s.next then
    { s with next := region_for_ptr ptr }
  else s

/-- Function `calloc` of stdlib.c: `malloc(count * size)` followed by
`memset(result, 0, count * size)` — unconditionally, so a failed allocation
zeroes `count * size` bytes from address 0 (the null pointer).  Caution: the
model's byte map is unbounded, whereas in the wasm program a write that runs
past the end of linear memory traps the instance; on the failure path with
`count * size` larger than the current memory this `memset` is such a trap,
so the model's benign `(none, _)` result there understates the damage and no
theorem should present `calloc`'s failure as an ordinary one. -/
def calloc (s : AllocState) (count size : Nat) : Option Nat × AllocState :=
  ((malloc s (count * size % SIZE_T_MOD)).1,
   { (malloc s (count * size % SIZE_T_MOD)).2 with
      bytes := memset (malloc s (count * size % SIZE_T_MOD)).2.bytes
        ((malloc s (count * size % SIZE_T_MOD)).1.getD 0) 0
        (count * size % SIZE_T_MOD) })

/-- Function `realloc` of stdlib.c: null pointer delegates to `malloc`; the
most-recently-allocated region is reallocated in place by rewinding `next`
and re-mallocing; any other region is copied with `memcpy` — unconditionally,
so a failed allocation copies the old bytes to address 0.  The C source
loads `region->size` twice: once before the inner `malloc` (for the
`region_end == next` test) and again after it (for the `memcpy` length), so
the copy length is read from the post-`malloc` bytes, which matters when the
new header overlaps the old one. -/
def realloc (s : AllocState) (ptr new_size : Nat) : Option Nat × AllocState :=
  if ptr = 0 then malloc s new_size
  else if region_after (region_for_ptr ptr) (readWord s.bytes (region_for_ptr ptr))
      = s.next then
    malloc { s with next := region_for_ptr ptr } new_size
  else
    ((malloc s new_size).1,
     { (malloc s new_size).2 with
        bytes := memcpy (malloc s new_size).2.bytes ((malloc s new_size).1.getD 0)
          ptr (readWord (malloc s new_size).2.bytes (region_for_ptr ptr)) })

/-- Run a list of `malloc` calls in order, collecting the returned pointers;
`none` when any of them fails.  This is the "sequence of N successful malloc
calls" scenario of the allocator properties. -/
def mallocAll (s : AllocState) : List Nat → Option (List Nat × AllocState)
  | [] => some ([], s)
  | size :: rest =>
    match malloc s size with
    | (some p, s1) =>
      match mallocAll s1 rest with
      | some (ps, s2) => some (p :: ps, s2)
      | none => none
    | (none, _) => none

/-- The pointers returned by a successful `mallocAll` run
(`[]` when the run fails). -/
def allocPtrs (s : AllocState) (sizes : List Nat) : List Nat :=
  ((mallocAll s sizes).getD ([], s)).1

/-- The allocator state after a successful `mallocAll` run
(`s` itself when the run fails). -/
def allocState (s : AllocState) (sizes : List Nat) : AllocState :=
  ((mallocAll s sizes).getD ([], s)).2

/-- Run a list of `free` calls in order. -/
def freeAll (s : AllocState) (ps : List Nat) : AllocState := ps.foldl free s

/-- One allocator call issued by scanner code.  `free` and `realloc` take the
index of a pointer previously returned by an allocation call (out-of-range
indices denote the null pointer). -/
inductive AllocOp where
  | mallocOp : Nat → AllocOp
  | callocOp : Nat → Nat → AllocOp
  | reallocOp : Nat → Nat → AllocOp
  | freeOp : Nat → AllocOp

/-- Allocator state paired with the pointers returned (non-null) so far. -/
structure TraceState where
  st : AllocState
  rets : List Nat

/-- Execute one allocator call, recording any non-null returned pointer. -/
def stepOp (t : TraceState) : AllocOp → TraceState
  | .mallocOp size =>
    ⟨(malloc t.st size).2, t.rets ++ (malloc t.st size).1.toList⟩
  | .callocOp count size =>
    ⟨(calloc t.st count size).2, t.rets ++ (calloc t.st count size).1.toList⟩
  | .reallocOp i new_size =>
    ⟨(realloc t.st (t.rets.getD i 0) new_size).2,
     t.rets ++ (realloc t.st (t.rets.getD i 0) new_size).1.toList⟩
  | .freeOp i =>
    ⟨free t.st (t.rets.getD i 0), t.rets⟩

/-- Execute a sequence of allocator calls. -/
def runOps (t : TraceState) (ops : List AllocOp) : TraceState := ops.foldl stepOp t

/-- An upper bound on the number of address units a `mallocAll` run can
advance `next` by: each region needs at most `size + 4` header-and-data bytes
plus at most 3 alignment padding bytes, so `size + 8` strictly dominates.
Used as a convenient no-wraparound side condition. -/
def sizesSpan (sizes : List Nat) : Nat := (sizes.map (fun z => z + 8)).sum

/-- The alignment invariant of a trace: the bump pointer is 4-byte aligned
and bounded, and so is every pointer an allocation call has returned. -/
def AlignedRets (t : TraceState) : Prop :=
  t.st.next % 4 = 0 ∧ t.st.next < SIZE_T_MOD ∧
  ∀ p ∈ t.rets, p % 4 = 0 ∧ p < SIZE_T_MOD

/-- A freshly instantiated one-page linear memory with a generous engine page
limit, before the heap-reset hook has run. -/
def basePages1 : AllocState :=
  { pages := 1, maxPages := 1024, bytes := fun _ => 0,
    heap_start := 0, heap_end := 0, next := 0 }

/-- A one-page linear memory whose engine refuses any memory growth. -/
def basePages1Cap1 : AllocState :=
  { pages := 1, maxPages := 1, bytes := fun _ => 0,
    heap_start := 0, heap_end := 0, next := 0 }

/-- A 128-page (8 MiB) linear memory with the heap based at address 0 and
`heap_end` already covering all of it. -/
def basePages128 : AllocState :=
  { pages := 128, maxPages := 128, bytes := fun _ => 0,
    heap_start := 0, heap_end := 8388608, next := 0 }

/-- A second one-page state, agreeing with `basePages1` only on the page
count; used to exhibit that `reset_heap` erases all other allocator state. -/
def basePages1Alt : AllocState :=
  { pages := 1, maxPages := 7, bytes := fun _ => 9,
    heap_start := 3, heap_end := 11, next := 77 }

/-- A one-page linear memory under an engine willing to grow all the way to
the 4 GiB wasm32 limit (65536 pages); used to exhibit that the signed
pointer-difference ceiling test is bypassed for 2 GiB-scale requests. -/
def basePages1Max : AllocState :=
  { pages := 1, maxPages := 65536, bytes := fun _ => 0,
    heap_start := 0, heap_end := 0, next := 0 }

end TreeSitterWasm

namespace TreeSitterCursor

/-- The `TreeCursorStep` enumeration of tree_cursor.h: the result of the
internal cursor step operations `ts_tree_cursor_goto_first_child_internal` and
`ts_tree_cursor_goto_next_sibling_internal`.  `stepNone` is
`TreeCursorStepNone` (no such move), `stepHidden` is `TreeCursorStepHidden`
(moved onto a node the grammar marks invisible), `stepVisible` is
`TreeCursorStepVisible` (moved onto a visible node). -/
inductive TreeCursorStep where
  | stepNone
  | stepHidden
  | stepVisible
deriving DecidableEq

end TreeSitterCursor

namespace TreeSitterWasmStore

/-- The scanner-instance operations of the sandboxed external-scanner ABI,
one constructor per `ts_wasm_store_call_scanner_*` function declared in
wasm_store.h. -/
inductive ScannerInstanceCall where
  | create
  | destroy
  | scan
  | serialize
  | deserialize
deriving DecidableEq

/-- The scanner-instance calls wasm_store.h declares, in declaration order:
`ts_wasm_store_call_scanner_create`, `..._destroy`, `..._scan`,
`..._serialize`, `..._deserialize`. -/
def scanner_instance_calls : List ScannerInstanceCall :=
  [.create, .destroy, .scan, .serialize, .deserialize]

/-- Whether a scanner-instance call returns a value to the host
(`create` returns the opaque instance handle, `scan` returns whether a token
matched, `serialize` returns the byte count written; `destroy` and
`deserialize` return nothing), per the declarations in wasm_store.h. -/
def returnsValue : ScannerInstanceCall → Bool
  | .create => true
  | .destroy => false
  | .scan => true
  | .serialize => true
  | .deserialize => false

end TreeSitterWasmStore

namespace TreeSitterWasm

lemma size_t_mod_pos : 0 < SIZE_T_MOD := by norm_num [SIZE_T_MOD]

lemma writeWord_lt (f : Nat → Nat) (a v x : Nat) (hx : x < a) :
    writeWord f a v x = f x := by
  unfold writeWord
  split_ifs <;> omega

lemma writeWord_gt (f : Nat → Nat) (a v x : Nat) (hx : a + 3 < x) :
    writeWord f a v x = f x := by
  unfold writeWord
  split_ifs <;> omega

lemma readWord_congr (f g : Nat → Nat) (a : Nat)
    (h0 : f a = g a) (h1 : f (a + 1) = g (a + 1))
    (h2 : f (a + 2) = g (a + 2)) (h3 : f (a + 3) = g (a + 3)) :
    readWord f a = readWord g a := by
  unfold readWord readByte
  rw [h0, h1, h2, h3]

lemma readWord_writeWord (f : Nat → Nat) (a v : Nat) :
    readWord (writeWord f a v) a = v % SIZE_T_MOD := by
  unfold readWord readByte writeWord SIZE_T_MOD
  norm_num
  omega

lemma region_after_le (r len : Nat) : region_after r len ≤ r + len + 7 := by
  unfold region_after
  calc (r + 4 + len + 3) % SIZE_T_MOD / 4 * 4
      ≤ (r + 4 + len + 3) % SIZE_T_MOD := Nat.div_mul_le_self _ _
    _ ≤ r + 4 + len + 3 := Nat.mod_le _ _
    _ = r + len + 7 := by omega

lemma region_after_lt_mod (r len : Nat) : region_after r len < SIZE_T_MOD := by
  unfold region_after
  calc (r + 4 + len + 3) % SIZE_T_MOD / 4 * 4
      ≤ (r + 4 + len + 3) % SIZE_T_MOD := Nat.div_mul_le_self _ _
    _ < SIZE_T_MOD := Nat.mod_lt _ size_t_mod_pos

lemma region_after_mod4 (r len : Nat) : region_after r len % 4 = 0 := by
  unfold region_after
  exact Nat.mul_mod_left _ _

lemma region_after_eq_of_lt (r len : Nat) (h : r + len + 7 < SIZE_T_MOD) :
    region_after r len = (r + len + 7) / 4 * 4 := by
  unfold region_after
  rw [show r + 4 + len + 3 = r + len + 7 by omega, Nat.mod_eq_of_lt h]

lemma region_after_ge (r len : Nat) (h : r + len + 7 < SIZE_T_MOD) :
    r + 4 ≤ region_after r len := by
  rw [region_after_eq_of_lt r len h]
  omega

lemma grow_heap_snd_of_true (s : AllocState) (z : Nat)
    (h : (grow_heap s z).1 = true) :
    (grow_heap s z).2 = { s with pages := s.pages + growPages z } := by
  unfold grow_heap at h ⊢
  by_cases hc : s.pages + growPages z ≤ s.maxPages
  · rw [if_pos hc]
  · rw [if_neg hc] at h
    simp at h

/-- What a successful `malloc` did: returned `next + 4` (the `data` member of
the region placed at the old `next`), stored the size in the region header,
and advanced `next` to `region_after next size`.  Both the growth and the
no-growth paths commit identically. -/
lemma malloc_some_spec (s : AllocState) (z p : Nat) (t : AllocState)
    (h : malloc s z = (some p, t)) :
    p = (s.next + 4) % SIZE_T_MOD ∧
    t.next = region_after s.next z ∧
    t.bytes = writeWord s.bytes s.next z ∧
    t.heap_start = s.heap_start ∧
    t.maxPages = s.maxPages := by
  unfold malloc at h
  split_ifs at h with h1 h2 h3
  · simp at h
  · simp only [grow_heap_snd_of_true s z h3] at h
    unfold mallocCommit at h
    injection h with hp ht
    injection hp with hp
    subst ht
    exact ⟨hp.symm, rfl, rfl, rfl, rfl⟩
  · simp at h
  · unfold mallocCommit at h
    injection h with hp ht
    injection hp with hp
    subst ht
    exact ⟨hp.symm, rfl, rfl, rfl, rfl⟩

/-- A failing `malloc` returns the state unchanged. -/
lemma malloc_none_spec (s : AllocState) (z : Nat) (t : AllocState)
    (h : malloc s z = (none, t)) : t = s := by
  unfold malloc at h
  split_ifs at h
  · injection h with h1 h2; exact h2.symm
  · unfold mallocCommit at h; simp at h
  · injection h with h1 h2; exact h2.symm
  · unfold mallocCommit at h; simp at h

lemma mallocAll_cons_elim {s : AllocState} {z : Nat} {rest : List Nat}
    {ps : List Nat} {s' : AllocState}
    (h : mallocAll s (z :: rest) = some (ps, s')) :
    ∃ p s1 ps1, malloc s z = (some p, s1) ∧
      mallocAll s1 rest = some (ps1, s') ∧ ps = p :: ps1 := by
  rw [mallocAll] at h
  rcases hm : malloc s z with ⟨r, s1⟩
  rw [hm] at h
  cases r with
  | none => simp at h
  | some p =>
    dsimp only at h
    rcases hr : mallocAll s1 rest with _ | ⟨ps1, s2⟩
    · rw [hr] at h; simp at h
    · rw [hr] at h
      dsimp only at h
      injection h with h
      injection h with h1 h2
      exact ⟨p, s1, ps1, by simp [hm], h2 ▸ hr, h1.symm⟩

lemma sizesSpan_nil : sizesSpan [] = 0 := rfl

lemma sizesSpan_cons (z : Nat) (rest : List Nat) :
    sizesSpan (z :: rest) = z + 8 + sizesSpan rest := by
  simp [sizesSpan]

/-- Shape facts about a successful run of `malloc` calls: the bump pointer
only moves forward, by at most `sizesSpan sizes`, the heap base is untouched,
and no byte below the starting bump pointer is written. -/
lemma mallocAll_shape :
    ∀ (sizes : List Nat) (s : AllocState) (ps : List Nat) (s' : AllocState),
    mallocAll s sizes = some (ps, s') →
    s.next + sizesSpan sizes < SIZE_T_MOD →
    ps.length = sizes.length ∧
    s.next ≤ s'.next ∧
    s'.next ≤ s.next + sizesSpan sizes ∧
    s'.heap_start = s.heap_start ∧
    (∀ x, x < s.next → s'.bytes x = s.bytes x) ∧
    (sizes ≠ [] → s.next + 4 ≤ s'.next) := by
  intro sizes
  induction sizes with
  | nil =>
    intro s ps s' h _
    rw [mallocAll] at h
    injection h with h
    injection h with h1 h2
    subst h2
    subst h1
    simp [sizesSpan_nil]
  | cons z rest ih =>
    intro s ps s' h hb
    obtain ⟨p, s1, ps1, hm, hr, hps⟩ := mallocAll_cons_elim h
    obtain ⟨hp, hnext, hbytes, hhs, _⟩ := malloc_some_spec s z p s1 hm
    rw [sizesSpan_cons] at hb
    have hra_le : s1.next ≤ s.next + z + 7 := hnext ▸ region_after_le s.next z
    have hra_ge : s.next + 4 ≤ s1.next := by
      rw [hnext]
      exact region_after_ge s.next z (by omega)
    have hb1 : s1.next + sizesSpan rest < SIZE_T_MOD := by omega
    obtain ⟨ihlen, ihmono, ihub, ihhs, ihbytes, _⟩ := ih s1 ps1 s' hr hb1
    subst hps
    refine ⟨by simp [ihlen], by omega, by rw [sizesSpan_cons]; omega,
      by rw [ihhs, hhs], ?_, ?_⟩
    · intro x hx
      rw [ihbytes x (by omega), hbytes, writeWord_lt s.bytes s.next z x hx]
    · intro _
      omega

lemma free_bytes (s : AllocState) (p : Nat) : (free s p).bytes = s.bytes := by
  unfold free
  split_ifs <;> rfl

lemma freeAll_bytes : ∀ (qs : List Nat) (s : AllocState),
    (freeAll s qs).bytes = s.bytes := by
  intro qs
  induction qs with
  | nil => intro s; rfl
  | cons q qs ih =>
    intro s
    show (freeAll (free s q) qs).bytes = s.bytes
    rw [ih (free s q), free_bytes]

/-- Freeing a pointer whose region header reads `z` and whose region ends
exactly at the bump pointer rewinds `next` to the region base. -/
lemma free_last (s : AllocState) (n z : Nat) (hn : n < SIZE_T_MOD)
    (hz : readWord s.bytes n = z) (hend : region_after n z = s.next) :
    free s (n + 4) = { s with next := n } := by
  unfold free
  rw [if_neg (by omega)]
  have hreg : region_for_ptr (n + 4) = n := by
    unfold region_for_ptr SIZE_T_MOD at *
    omega
  rw [hreg, hz, if_pos hend]

/-- Freeing a pointer whose region does not end at the bump pointer is a
no-op. -/
lemma free_not_last (s : AllocState) (n z : Nat) (hn : n < SIZE_T_MOD)
    (hz : readWord s.bytes n = z) (hend : region_after n z ≠ s.next) :
    free s (n + 4) = s := by
  unfold free
  rw [if_neg (by omega)]
  have hreg : region_for_ptr (n + 4) = n := by
    unfold region_for_ptr SIZE_T_MOD at *
    omega
  rw [hreg, hz, if_neg hend]

/-- The last pointer of a successful `mallocAll` run: it is `n + 4` for a
region base `n` at or past the initial bump pointer, its header still reads
the requested size, and its region ends exactly at the final bump pointer. -/
lemma mallocAll_last_spec :
    ∀ (sizes : List Nat) (s : AllocState) (ps : List Nat) (s' : AllocState),
    mallocAll s sizes = some (ps, s') →
    s.next + sizesSpan sizes < SIZE_T_MOD →
    ps ≠ [] →
    ∃ n z, ps.getLast? = some (n + 4) ∧ s.next ≤ n ∧
      readWord s'.bytes n = z ∧ region_after n z = s'.next ∧
      n + z + 8 < SIZE_T_MOD := by
  intro sizes
  induction sizes with
  | nil =>
    intro s ps s' h _ hne
    rw [mallocAll] at h
    injection h with h
    injection h with h1 h2
    exact absurd h1.symm hne
  | cons z rest ih =>
    intro s ps s' h hb hne
    obtain ⟨p, s1, ps1, hm, hr, hps⟩ := mallocAll_cons_elim h
    obtain ⟨hp, hnext, hbytes, _, _⟩ := malloc_some_spec s z p s1 hm
    rw [sizesSpan_cons] at hb
    have hra_le : s1.next ≤ s.next + z + 7 := hnext ▸ region_after_le s.next z
    have hra_ge : s.next + 4 ≤ s1.next := by
      rw [hnext]
      exact region_after_ge s.next z (by omega)
    have hb1 : s1.next + sizesSpan rest < SIZE_T_MOD := by omega
    have hpval : p = s.next + 4 := by
      rw [hp, Nat.mod_eq_of_lt]
      unfold SIZE_T_MOD at *
      omega
    cases rest with
    | nil =>
      rw [mallocAll] at hr
      injection hr with hr
      injection hr with hr1 hr2
      subst hr2
      subst hps
      subst hr1
      refine ⟨s.next, z, ?_, le_refl _, ?_, hnext.symm, by omega⟩
      · simp [hpval]
      · rw [hbytes, readWord_writeWord, Nat.mod_eq_of_lt]
        unfold SIZE_T_MOD at *
        omega
    | cons z2 rest2 =>
      have hne1 : ps1 ≠ [] := by
        obtain ⟨hlen, _⟩ := mallocAll_shape (z2 :: rest2) s1 ps1 s' hr hb1
        intro hnil
        rw [hnil] at hlen
        simp at hlen
      obtain ⟨n, w, hlast, hge, hword, hend, hbound⟩ :=
        ih s1 ps1 s' hr hb1 hne1
      subst hps
      refine ⟨n, w, ?_, by omega, hword, hend, hbound⟩
      rw [← hlast]
      cases ps1 with
      | nil => exact absurd rfl hne1
      | cons q qs => exact List.getLast?_cons_cons

/-- After a successful `mallocAll` run, freeing any pointer other than the
last one returned leaves the allocator state completely unchanged. -/
lemma mallocAll_free_earlier :
    ∀ (sizes : List Nat) (s : AllocState) (ps : List Nat) (s' : AllocState)
      (i : Nat),
    mallocAll s sizes = some (ps, s') →
    s.next + sizesSpan sizes < SIZE_T_MOD →
    i + 1 < ps.length →
    free s' (ps.getD i 0) = s' := by
  intro sizes
  induction sizes with
  | nil =>
    intro s ps s' i h _ hi
    rw [mallocAll] at h
    injection h with h
    injection h with h1 h2
    rw [← h1] at hi
    simp at hi
  | cons z rest ih =>
    intro s ps s' i h hb hi
    obtain ⟨p, s1, ps1, hm, hr, hps⟩ := mallocAll_cons_elim h
    obtain ⟨hp, hnext, hbytes, _, _⟩ := malloc_some_spec s z p s1 hm
    rw [sizesSpan_cons] at hb
    have hra_le : s1.next ≤ s.next + z + 7 := hnext ▸ region_after_le s.next z
    have hra_ge : s.next + 4 ≤ s1.next := by
      rw [hnext]
      exact region_after_ge s.next z (by omega)
    have hb1 : s1.next + sizesSpan rest < SIZE_T_MOD := by omega
    obtain ⟨hlen, hmono, hub, _, hbyteslow, hstrict⟩ :=
      mallocAll_shape rest s1 ps1 s' hr hb1
    subst hps
    cases i with
    | zero =>
      rw [List.getD_cons_zero]
      have hrest_ne : rest ≠ [] := by
        intro hnil
        rw [hnil] at hlen
        simp at hlen
        rw [hlen] at hi
        simp at hi
      have hpval : p = s.next + 4 := by
        rw [hp, Nat.mod_eq_of_lt]
        unfold SIZE_T_MOD at *
        omega
      rw [hpval]
      apply free_not_last s' s.next z (by omega)
      · have h0 : s'.bytes s.next = s1.bytes s.next := hbyteslow _ (by omega)
        have h1 : s'.bytes (s.next + 1) = s1.bytes (s.next + 1) :=
          hbyteslow _ (by omega)
        have h2 : s'.bytes (s.next + 2) = s1.bytes (s.next + 2) :=
          hbyteslow _ (by omega)
        have h3 : s'.bytes (s.next + 3) = s1.bytes (s.next + 3) :=
          hbyteslow _ (by omega)
        rw [readWord_congr s'.bytes s1.bytes s.next h0 h1 h2 h3, hbytes,
          readWord_writeWord, Nat.mod_eq_of_lt]
        unfold SIZE_T_MOD at *
        omega
      · rw [← hnext]
        have := hstrict hrest_ne
        omega
    | succ j =>
      rw [List.getD_cons_succ]
      exact ih s1 ps1 s' j hr hb1 (by simpa using hi)

/-- Freeing the pointers of a successful `mallocAll` run in reverse (LIFO)
order returns the bump pointer to its starting position. -/
lemma mallocAll_lifo :
    ∀ (sizes : List Nat) (s : AllocState) (ps : List Nat) (s' : AllocState),
    mallocAll s sizes = some (ps, s') →
    s.next + sizesSpan sizes < SIZE_T_MOD →
    (freeAll s' ps.reverse).next = s.next := by
  intro sizes
  induction sizes with
  | nil =>
    intro s ps s' h _
    rw [mallocAll] at h
    injection h with h
    injection h with h1 h2
    subst h2
    rw [← h1]
    rfl
  | cons z rest ih =>
    intro s ps s' h hb
    obtain ⟨p, s1, ps1, hm, hr, hps⟩ := mallocAll_cons_elim h
    obtain ⟨hp, hnext, hbytes, _, _⟩ := malloc_some_spec s z p s1 hm
    rw [sizesSpan_cons] at hb
    have hra_le : s1.next ≤ s.next + z + 7 := hnext ▸ region_after_le s.next z
    have hra_ge : s.next + 4 ≤ s1.next := by
      rw [hnext]
      exact region_after_ge s.next z (by omega)
    have hb1 : s1.next + sizesSpan rest < SIZE_T_MOD := by omega
    obtain ⟨hlen, hmono, hub, _, hbyteslow, _⟩ :=
      mallocAll_shape rest s1 ps1 s' hr hb1
    subst hps
    rw [List.reverse_cons]
    unfold freeAll
    rw [List.foldl_append]
    show (free (freeAll s' ps1.reverse) p).next = s.next
    have htn : (freeAll s' ps1.reverse).next = s1.next := ih s1 ps1 s' hr hb1
    have htb : (freeAll s' ps1.reverse).bytes = s'.bytes := freeAll_bytes _ _
    have hpval : p = s.next + 4 := by
      rw [hp, Nat.mod_eq_of_lt]
      unfold SIZE_T_MOD at *
      omega
    rw [hpval]
    rw [free_last (freeAll s' ps1.reverse) s.next z (by omega) ?_ ?_]
    · rw [htb]
      have h0 : s'.bytes s.next = s1.bytes s.next := hbyteslow _ (by omega)
      have h1 : s'.bytes (s.next + 1) = s1.bytes (s.next + 1) :=
        hbyteslow _ (by omega)
      have h2 : s'.bytes (s.next + 2) = s1.bytes (s.next + 2) :=
        hbyteslow _ (by omega)
      have h3 : s'.bytes (s.next + 3) = s1.bytes (s.next + 3) :=
        hbyteslow _ (by omega)
      rw [readWord_congr s'.bytes s1.bytes s.next h0 h1 h2 h3, hbytes,
        readWord_writeWord, Nat.mod_eq_of_lt]
      unfold SIZE_T_MOD at *
      omega
    · rw [htn, hnext]

lemma region_for_ptr_eq (p : Nat) (h4 : 4 ≤ p) (hM : p < SIZE_T_MOD) :
    region_for_ptr p = p - 4 := by
  unfold region_for_ptr SIZE_T_MOD at *
  omega

/-- The signed pointer-difference test of `malloc` fires exactly on the
window where the 32-bit difference `region_end - heap_start` is a positive
signed value above the ceiling: more than `MAX_HEAP_SIZE` but less than
`2 ^ 31` bytes. -/
lemma heap_limit_exceeded_of (re hs : Nat)
    (h3 : hs + MAX_HEAP_SIZE < re) (h4 : re < hs + 2 ^ 31) :
    heap_limit_exceeded re hs = true := by
  simp only [heap_limit_exceeded, decide_eq_true_eq]
  unfold SIZE_T_MOD MAX_HEAP_SIZE at *
  norm_num at *
  omega

/-- When the requested region either already fits below `heap_end` or the
ceiling check passes and the engine can grow far enough, `malloc` commits:
it returns the old bump pointer plus 4, stores the size header there, and
advances the bump pointer. -/
lemma malloc_result_of_avail (u : AllocState) (z : Nat)
    (h : region_after u.next z ≤ u.heap_end ∨
      (heap_limit_exceeded (region_after u.next z) u.heap_start = false ∧
       u.pages + growPages z ≤ u.maxPages)) :
    (malloc u z).1 = some ((u.next + 4) % SIZE_T_MOD) ∧
    (malloc u z).2.next = region_after u.next z ∧
    (malloc u z).2.bytes = writeWord u.bytes u.next z := by
  by_cases hg : region_after u.next z > u.heap_end
  · have hr := h.resolve_left (by omega)
    have hgt : (grow_heap u z).1 = true := by
      unfold grow_heap
      rw [if_pos hr.2]
    unfold malloc
    rw [if_pos hg, if_neg (by simp [hr.1]), if_pos hgt,
      grow_heap_snd_of_true u z hgt]
    exact ⟨rfl, rfl, rfl⟩
  · unfold malloc
    rw [if_neg hg]
    exact ⟨rfl, rfl, rfl⟩

/-- Allocation via `malloc` preserves 4-byte alignment and boundedness of the bump pointer,
and any pointer it returns is 4-byte aligned and bounded. -/
lemma malloc_align (u : AllocState) (z : Nat)
    (h4 : u.next % 4 = 0) (hM : u.next < SIZE_T_MOD) :
    (malloc u z).2.next % 4 = 0 ∧ (malloc u z).2.next < SIZE_T_MOD ∧
    ∀ q, (malloc u z).1 = some q → q % 4 = 0 ∧ q < SIZE_T_MOD := by
  rcases hm : malloc u z with ⟨r, t⟩
  cases r with
  | none =>
    have ht := malloc_none_spec u z t hm
    subst ht
    exact ⟨h4, hM, by simp⟩
  | some p =>
    obtain ⟨hp, hnext, _, _, _⟩ := malloc_some_spec u z p t hm
    refine ⟨?_, ?_, ?_⟩
    · show t.next % 4 = 0
      rw [hnext]
      exact region_after_mod4 u.next z
    · show t.next < SIZE_T_MOD
      rw [hnext]
      exact region_after_lt_mod u.next z
    · intro q hq
      have hqp : q = p := by
        injection hq with hq
        exact hq.symm
      subst hqp
      constructor
      · rw [hp, Nat.mod_mod_of_dvd _ (by norm_num [SIZE_T_MOD])]
        omega
      · rw [hp]
        exact Nat.mod_lt _ size_t_mod_pos

/-- Deallocation via `free` preserves 4-byte alignment and boundedness of the bump pointer
when called with a null or aligned bounded pointer. -/
lemma free_align (u : AllocState) (p : Nat)
    (h4 : u.next % 4 = 0) (hM : u.next < SIZE_T_MOD)
    (hp : p % 4 = 0 ∧ p < SIZE_T_MOD ∨ p = 0) :
    (free u p).next % 4 = 0 ∧ (free u p).next < SIZE_T_MOD := by
  unfold free
  split_ifs with h1 h2
  · exact ⟨h4, hM⟩
  · rcases hp with ⟨ha, hb⟩ | h0
    · constructor
      · show region_for_ptr p % 4 = 0
        unfold region_for_ptr SIZE_T_MOD at *
        omega
      · show region_for_ptr p < SIZE_T_MOD
        unfold region_for_ptr SIZE_T_MOD at *
        omega
    · exact absurd h0 h1
  · exact ⟨h4, hM⟩

lemma getD_mem_or_zero : ∀ (l : List Nat) (i : Nat),
    l.getD i 0 ∈ l ∨ l.getD i 0 = 0 := by
  intro l
  induction l with
  | nil => intro i; right; simp
  | cons x xs ih =>
    intro i
    cases i with
    | zero =>
      left
      rw [List.getD_cons_zero]
      exact List.mem_cons_self x xs
    | succ j =>
      rw [List.getD_cons_succ]
      rcases ih j with h | h
      · exact Or.inl (List.mem_cons_of_mem x h)
      · exact Or.inr h

lemma mem_toList_iff {q : Nat} {o : Option Nat} : q ∈ o.toList ↔ o = some q := by
  cases o with
  | none => simp [Option.toList]
  | some v =>
    simp [Option.toList]
    exact eq_comm

lemma stepOp_align (t : TraceState) (op : AllocOp) (h : AlignedRets t) :
    AlignedRets (stepOp t op) := by
  obtain ⟨h4, hM, hrets⟩ := h
  cases op with
  | mallocOp z =>
    obtain ⟨g4, gM, gq⟩ := malloc_align t.st z h4 hM
    refine ⟨g4, gM, ?_⟩
    intro p hp
    rcases List.mem_append.mp hp with hmem | hmem
    · exact hrets p hmem
    · exact gq p (mem_toList_iff.mp hmem)
  | callocOp c w =>
    obtain ⟨g4, gM, gq⟩ := malloc_align t.st (c * w % SIZE_T_MOD) h4 hM
    refine ⟨g4, gM, ?_⟩
    intro p hp
    rcases List.mem_append.mp hp with hmem | hmem
    · exact hrets p hmem
    · exact gq p (mem_toList_iff.mp hmem)
  | freeOp i =>
    have hmem := getD_mem_or_zero t.rets i
    refine ⟨?_, ?_, hrets⟩
    all_goals
      have := free_align t.st (t.rets.getD i 0) h4 hM
        (hmem.imp (fun hm => hrets _ hm) id)
      tauto
  | reallocOp i z =>
    have hp0 : t.rets.getD i 0 % 4 = 0 ∧ t.rets.getD i 0 < SIZE_T_MOD ∨
        t.rets.getD i 0 = 0 :=
      (getD_mem_or_zero t.rets i).imp (fun hm => hrets _ hm) id
    have key : (realloc t.st (t.rets.getD i 0) z).2.next % 4 = 0 ∧
        (realloc t.st (t.rets.getD i 0) z).2.next < SIZE_T_MOD ∧
        ∀ q, (realloc t.st (t.rets.getD i 0) z).1 = some q →
          q % 4 = 0 ∧ q < SIZE_T_MOD := by
      unfold realloc
      split_ifs with h1 h2
      · exact malloc_align t.st z h4 hM
      · have hreg4 : region_for_ptr (t.rets.getD i 0) % 4 = 0 := by
          rcases hp0 with ⟨ha, hb⟩ | h0
          · unfold region_for_ptr SIZE_T_MOD at *
            omega
          · exact absurd h0 h1
        have hregM : region_for_ptr (t.rets.getD i 0) < SIZE_T_MOD := by
          rcases hp0 with ⟨ha, hb⟩ | h0
          · unfold region_for_ptr SIZE_T_MOD at *
            omega
          · exact absurd h0 h1
        exact malloc_align _ z hreg4 hregM
      · obtain ⟨g4, gM, gq⟩ := malloc_align t.st z h4 hM
        exact ⟨g4, gM, gq⟩
    obtain ⟨g4, gM, gq⟩ := key
    refine ⟨g4, gM, ?_⟩
    intro p hp
    rcases List.mem_append.mp hp with hmem | hmem
    · exact hrets p hmem
    · exact gq p (mem_toList_iff.mp hmem)

lemma runOps_align (ops : List AllocOp) :
    ∀ t, AlignedRets t → AlignedRets (runOps t ops) := by
  induction ops with
  | nil => intro t h; exact h
  | cons op ops ih =>
    intro t h
    exact ih (stepOp t op) (stepOp_align t op h)

/-- C1: after any sequence of N successful `malloc` calls, issuing `free` on
the N returned pointers in reverse (LIFO) order returns the allocator's bump
pointer `next` exactly to the position it had before the first allocation;
moreover `free` never writes to memory, so free calls issued in any order
whatsoever leave the contents of every block that is still live intact.
The arithmetic side condition keeps the run clear of 32-bit address
wraparound. -/
theorem lifo_frees_restore_bump_pointer (s : AllocState) (sizes : List Nat)
    (hb : s.next + sizesSpan sizes < SIZE_T_MOD)
    (hs : (mallocAll s sizes).isSome = true) :
    (freeAll (allocState s sizes) (allocPtrs s sizes).reverse).next = s.next ∧
    ∀ qs : List Nat,
      (freeAll (allocState s sizes) qs).bytes = (allocState s sizes).bytes := by
  rcases hmm : mallocAll s sizes with _ | ⟨ps, s'⟩
  · rw [hmm] at hs
    simp at hs
  · have hA : allocState s sizes = s' := by
      unfold allocState
      rw [hmm]
      rfl
    have hP : allocPtrs s sizes = ps := by
      unfold allocPtrs
      rw [hmm]
      rfl
    rw [hA, hP]
    exact ⟨mallocAll_lifo sizes s ps s' hmm hb, fun qs => freeAll_bytes qs s'⟩

/-- C1 witness: two allocations of sizes 8 and 4 from a freshly reset
one-page heap, freed in reverse order, restore the bump pointer to 0. -/
theorem lifo_frees_restore_bump_pointer_witness :
    ((reset_heap basePages1 0).next + sizesSpan [8, 4] < SIZE_T_MOD ∧
     (mallocAll (reset_heap basePages1 0) [8, 4]).isSome = true) ∧
    ((freeAll (allocState (reset_heap basePages1 0) [8, 4])
        (allocPtrs (reset_heap basePages1 0) [8, 4]).reverse).next
      = (reset_heap basePages1 0).next ∧
     ∀ qs : List Nat,
       (freeAll (allocState (reset_heap basePages1 0) [8, 4]) qs).bytes
        = (allocState (reset_heap basePages1 0) [8, 4]).bytes) :=
  ⟨⟨by decide, by decide⟩,
   lifo_frees_restore_bump_pointer (reset_heap basePages1 0) [8, 4]
     (by decide) (by decide)⟩

/-- C2: in any state reached by a run of successful allocations, freeing the
most-recently-allocated (and not yet freed) block `p` rewinds the bump
pointer to `p`'s region base — `next + 4 = p` afterwards, so the next
successful allocation is placed at `p`'s address — while freeing any block
allocated earlier than the most recent one leaves the allocator state
completely unchanged. -/
theorem free_last_rewinds_free_earlier_noop (s : AllocState)
    (sizes : List Nat) (p : Nat)
    (hb : s.next + sizesSpan sizes < SIZE_T_MOD)
    (hs : (mallocAll s sizes).isSome = true)
    (hlast : (allocPtrs s sizes).getLast? = some p) :
    ((free (allocState s sizes) p).next + 4 = p ∧
     ∀ z q t, malloc (free (allocState s sizes) p) z = (some q, t) → q = p) ∧
    ∀ i, i + 1 < (allocPtrs s sizes).length →
      free (allocState s sizes) ((allocPtrs s sizes).getD i 0)
        = allocState s sizes := by
  rcases hmm : mallocAll s sizes with _ | ⟨ps, s'⟩
  · rw [hmm] at hs
    simp at hs
  · have hA : allocState s sizes = s' := by
      unfold allocState
      rw [hmm]
      rfl
    have hP : allocPtrs s sizes = ps := by
      unfold allocPtrs
      rw [hmm]
      rfl
    rw [hP] at hlast
    rw [hA, hP]
    have hne : ps ≠ [] := by
      intro hnil
      rw [hnil] at hlast
      simp at hlast
    obtain ⟨n, z, hlast', hge, hword, hend, hbound⟩ :=
      mallocAll_last_spec sizes s ps s' hmm hb hne
    have hpn : p = n + 4 := by
      rw [hlast] at hlast'
      injection hlast'
    subst hpn
    have hfree : free s' (n + 4) = { s' with next := n } :=
      free_last s' n z (by unfold SIZE_T_MOD at *; omega) hword hend
    refine ⟨⟨by rw [hfree], ?_⟩, ?_⟩
    · intro w q t hm
      obtain ⟨hq, _, _, _, _⟩ := malloc_some_spec _ w q t hm
      rw [hfree] at hq
      dsimp only at hq
      rw [hq, Nat.mod_eq_of_lt]
      unfold SIZE_T_MOD at *
      omega
    · intro i hi
      exact mallocAll_free_earlier sizes s ps s' i hmm hb hi

/-- C2 witness: with blocks of sizes 8 and 4 at pointers 4 and 16, freeing
the last pointer 16 rewinds `next` to 12, and freeing the earlier pointer 4
is a no-op. -/
theorem free_last_rewinds_free_earlier_noop_witness :
    ((reset_heap basePages1 0).next + sizesSpan [8, 4] < SIZE_T_MOD ∧
     (mallocAll (reset_heap basePages1 0) [8, 4]).isSome = true ∧
     (allocPtrs (reset_heap basePages1 0) [8, 4]).getLast? = some 16) ∧
    (((free (allocState (reset_heap basePages1 0) [8, 4]) 16).next + 4 = 16 ∧
      ∀ z q t,
        malloc (free (allocState (reset_heap basePages1 0) [8, 4]) 16) z
          = (some q, t) → q = 16) ∧
     ∀ i, i + 1 < (allocPtrs (reset_heap basePages1 0) [8, 4]).length →
       free (allocState (reset_heap basePages1 0) [8, 4])
           ((allocPtrs (reset_heap basePages1 0) [8, 4]).getD i 0)
         = allocState (reset_heap basePages1 0) [8, 4]) :=
  ⟨⟨by decide, by decide, by decide⟩,
   free_last_rewinds_free_earlier_noop (reset_heap basePages1 0) [8, 4] 16
     (by decide) (by decide) (by decide)⟩

/-- C3 counterexample: the 4 MiB ceiling is only tested when the requested
region does not fit below the current `heap_end`.  In an 8 MiB memory with
the heap based at 0, a single `malloc` of 5 MiB would make the heap span
`region_after 0 5242880 = 5242884 > MAX_HEAP_SIZE` bytes from `heap_start`,
yet it succeeds (returns pointer 4) instead of returning NULL, refuting the
claim that every such request fails. -/
theorem alloc_ceiling_unchecked_without_growth_cex :
    region_after basePages128.next 5242880
      > basePages128.heap_start + MAX_HEAP_SIZE ∧
    (malloc basePages128 5242880).1 = some 4 ∧
    (malloc basePages128 5242880).2.next = 5242884 := by decide

/-- The ceiling is also bypassed above the signed window: under an engine
willing to grow to the wasm32 limit, a 2 GiB request from a freshly reset
one-page heap needs growth and would end far more than `MAX_HEAP_SIZE`
bytes past `heap_start`, but the signed 32-bit pointer difference is
negative, the `> MAX_HEAP_SIZE` test is bypassed, the memory is grown by
32768 pages, and `malloc` succeeds with pointer 4. -/
lemma malloc_signed_ceiling_bypass :
    region_after (reset_heap basePages1Max 0).next (2 ^ 31)
      > (reset_heap basePages1Max 0).heap_end ∧
    region_after (reset_heap basePages1Max 0).next (2 ^ 31)
      > (reset_heap basePages1Max 0).heap_start + MAX_HEAP_SIZE ∧
    (malloc (reset_heap basePages1Max 0) (2 ^ 31)).1 = some 4 := by decide

/-- C3 (amended): for every `malloc` request that needs the heap to grow
(the requested region ends past `heap_end`) and whose fulfilment would put
the end of the new region more than `MAX_HEAP_SIZE` but less than `2 ^ 31`
bytes past `heap_start` — the window in which the code's signed 32-bit
pointer-difference test is decisive — the call returns NULL with the
allocator state completely unchanged: an ordinary allocation failure, after
which any request that fits below `heap_end` still succeeds; `realloc` of
the null pointer fails identically.  Outside this window the ceiling is not
enforced: requests fitting below the current `heap_end` are never tested,
and for 2 GiB-scale growth requests the signed difference turns negative
and the test is bypassed (`malloc_signed_ceiling_bypass`); `calloc`'s
failure path is not an ordinary failure at all, since it passes the NULL
result to an unconditional `memset`. -/
theorem alloc_ceiling_enforced_on_growth (s : AllocState) (z : Nat)
    (hgrow : region_after s.next z > s.heap_end)
    (hexceed : region_after s.next z > s.heap_start + MAX_HEAP_SIZE)
    (hsigned : region_after s.next z < s.heap_start + 2 ^ 31) :
    malloc s z = (none, s) ∧
    (∀ z2, region_after s.next z2 ≤ s.heap_end → (malloc s z2).1 ≠ none) ∧
    realloc s 0 z = (none, s) := by
  have hlim : heap_limit_exceeded (region_after s.next z) s.heap_start = true :=
    heap_limit_exceeded_of _ _ (by omega) (by omega)
  have hmain : malloc s z = (none, s) := by
    unfold malloc
    rw [if_pos hgrow, if_pos hlim]
  refine ⟨hmain, ?_, ?_⟩
  · intro z2 hz2
    unfold malloc
    rw [if_neg (by omega)]
    unfold mallocCommit
    simp
  · unfold realloc
    rw [if_pos rfl]
    exact hmain

/-- C3 (amended) witness: from a freshly reset one-page heap, a 5 MiB
request needs growth, would end inside the signed window beyond the
ceiling, and fails cleanly. -/
theorem alloc_ceiling_enforced_on_growth_witness :
    (region_after (reset_heap basePages1 0).next 5242880
        > (reset_heap basePages1 0).heap_end ∧
     region_after (reset_heap basePages1 0).next 5242880
        > (reset_heap basePages1 0).heap_start + MAX_HEAP_SIZE ∧
     region_after (reset_heap basePages1 0).next 5242880
        < (reset_heap basePages1 0).heap_start + 2 ^ 31) ∧
    (malloc (reset_heap basePages1 0) 5242880 = (none, reset_heap basePages1 0) ∧
     (∀ z2, region_after (reset_heap basePages1 0).next z2
          ≤ (reset_heap basePages1 0).heap_end →
        (malloc (reset_heap basePages1 0) z2).1 ≠ none) ∧
     realloc (reset_heap basePages1 0) 0 5242880
       = (none, reset_heap basePages1 0)) :=
  ⟨⟨by decide, by decide, by decide⟩,
   alloc_ceiling_enforced_on_growth (reset_heap basePages1 0) 5242880
     (by decide) (by decide) (by decide)⟩

/-- C4: reallocating the most-recently-allocated block `p` when the space
needed for the new size is available (either below `heap_end` or within the
ceiling with the engine able to grow that far) returns the very same pointer
`p`, and performs no data copy: every byte from `p` up — in particular the
block's contents up to `min old_size new_size` — and every byte below `p`'s
header are untouched. -/
theorem realloc_last_in_place (s : AllocState) (sizes : List Nat)
    (p new_size : Nat)
    (hb : s.next + sizesSpan sizes < SIZE_T_MOD)
    (hs : (mallocAll s sizes).isSome = true)
    (hlast : (allocPtrs s sizes).getLast? = some p)
    (hnw : p + new_size + 8 < SIZE_T_MOD)
    (hfit : region_after (p - 4) new_size ≤ (allocState s sizes).heap_end ∨
      (heap_limit_exceeded (region_after (p - 4) new_size)
          (allocState s sizes).heap_start = false ∧
       (allocState s sizes).pages + growPages new_size
         ≤ (allocState s sizes).maxPages)) :
    (realloc (allocState s sizes) p new_size).1 = some p ∧
    ∀ x, x < p - 4 ∨ p ≤ x →
      (realloc (allocState s sizes) p new_size).2.bytes x
        = (allocState s sizes).bytes x := by
  rcases hmm : mallocAll s sizes with _ | ⟨ps, s'⟩
  · rw [hmm] at hs
    simp at hs
  · have hA : allocState s sizes = s' := by
      unfold allocState
      rw [hmm]
      rfl
    have hP : allocPtrs s sizes = ps := by
      unfold allocPtrs
      rw [hmm]
      rfl
    rw [hP] at hlast
    rw [hA] at hfit ⊢
    have hne : ps ≠ [] := by
      intro hnil
      rw [hnil] at hlast
      simp at hlast
    obtain ⟨n, z, hlast', hge, hword, hend, hbound⟩ :=
      mallocAll_last_spec sizes s ps s' hmm hb hne
    have hpn : p = n + 4 := by
      rw [hlast] at hlast'
      injection hlast'
    subst hpn
    have hreg : region_for_ptr (n + 4) = n := by
      unfold region_for_ptr SIZE_T_MOD at *
      omega
    have hrw : realloc s' (n + 4) new_size
        = malloc { s' with next := n } new_size := by
      unfold realloc
      rw [if_neg (by omega), hreg, hword, if_pos hend]
    have hsimp : n + 4 - 4 = n := by omega
    rw [hsimp] at hfit
    obtain ⟨hres, hnext, hbytes⟩ :=
      malloc_result_of_avail { s' with next := n } new_size (by
        dsimp only
        exact hfit)
    rw [hrw]
    constructor
    · rw [hres]
      dsimp only
      rw [Nat.mod_eq_of_lt]
      unfold SIZE_T_MOD at *
      omega
    · intro x hx
      rw [hbytes]
      dsimp only
      rcases hx with hlt | hgt
      · exact writeWord_lt s'.bytes n new_size x (by omega)
      · exact writeWord_gt s'.bytes n new_size x (by omega)

/-- C4 witness: with blocks of sizes 8 and 4 at pointers 4 and 16,
reallocating the last block (pointer 16) to 100 bytes stays in place. -/
theorem realloc_last_in_place_witness :
    ((reset_heap basePages1 0).next + sizesSpan [8, 4] < SIZE_T_MOD ∧
     (mallocAll (reset_heap basePages1 0) [8, 4]).isSome = true ∧
     (allocPtrs (reset_heap basePages1 0) [8, 4]).getLast? = some 16 ∧
     16 + 100 + 8 < SIZE_T_MOD ∧
     region_after (16 - 4) 100
       ≤ (allocState (reset_heap basePages1 0) [8, 4]).heap_end) ∧
    ((realloc (allocState (reset_heap basePages1 0) [8, 4]) 16 100).1
        = some 16 ∧
     ∀ x, x < 16 - 4 ∨ 16 ≤ x →
       (realloc (allocState (reset_heap basePages1 0) [8, 4]) 16 100).2.bytes x
         = (allocState (reset_heap basePages1 0) [8, 4]).bytes x) :=
  ⟨⟨by decide, by decide, by decide, by decide, by decide⟩,
   realloc_last_in_place (reset_heap basePages1 0) [8, 4] 16 100
     (by decide) (by decide) (by decide) (by decide) (Or.inl (by decide))⟩

/-- C5: `reset_heap a` empties and relocates the heap: `heap_start` and the
bump pointer `next` both become `a` (and `heap_end` becomes the current end
of linear memory), so the first subsequent allocation places its region at
`a` — the returned data pointer is `a + 4`, just past the region header at
`a`, and the new bump pointer depends only on `a` and the requested size.
Moreover the allocator state after the reset depends only on `a` and the
linear-memory page count, so nothing about previously allocated blocks
influences any later allocation. -/
theorem reset_heap_relocates_and_empties (s s2 : AllocState) (a z : Nat) :
    (reset_heap s a).heap_start = a ∧
    (reset_heap s a).next = a ∧
    (reset_heap s a).heap_end = get_heap_end s ∧
    (∀ q t, malloc (reset_heap s a) z = (some q, t) →
      q = (a + 4) % SIZE_T_MOD ∧ t.next = region_after a z) ∧
    (s.pages = s2.pages →
      (reset_heap s a).heap_start = (reset_heap s2 a).heap_start ∧
      (reset_heap s a).next = (reset_heap s2 a).next ∧
      (reset_heap s a).heap_end = (reset_heap s2 a).heap_end) := by
  refine ⟨rfl, rfl, rfl, ?_, ?_⟩
  · intro q t hm
    obtain ⟨hq, hnext, _, _, _⟩ := malloc_some_spec _ z q t hm
    exact ⟨hq, hnext⟩
  · intro hp
    refine ⟨rfl, rfl, ?_⟩
    show s.pages * PAGESIZE = s2.pages * PAGESIZE
    rw [hp]

/-- C5 witness: resetting two entirely different one-page states to address 8
yields identical allocator fields, and the first allocation of size 4 is
placed at 8 with data pointer 12. -/
theorem reset_heap_relocates_and_empties_witness :
    ((reset_heap basePages1 8).heap_start = 8 ∧
     (reset_heap basePages1 8).next = 8 ∧
     (reset_heap basePages1 8).heap_end = get_heap_end basePages1 ∧
     (∀ q t, malloc (reset_heap basePages1 8) 4 = (some q, t) →
       q = (8 + 4) % SIZE_T_MOD ∧ t.next = region_after 8 4) ∧
     (basePages1.pages = basePages1Alt.pages →
       (reset_heap basePages1 8).heap_start
         = (reset_heap basePages1Alt 8).heap_start ∧
       (reset_heap basePages1 8).next = (reset_heap basePages1Alt 8).next ∧
       (reset_heap basePages1 8).heap_end
         = (reset_heap basePages1Alt 8).heap_end)) ∧
    basePages1.pages = basePages1Alt.pages :=
  ⟨reset_heap_relocates_and_empties basePages1 basePages1Alt 8 4, by decide⟩

/-- C8: the growth path of `malloc` can return a non-NULL pointer whose
region extends past the (already grown) end of linear memory.  From a fresh
one-page heap based at 0, `malloc 65532` fills the page exactly
(`next = heap_end = 65536`); the following `malloc 65536` needs
`region_after 65536 65536 = 131076` bytes, but `grow_heap` requests only
`ceil(65536 / PAGESIZE) = 1` page, ignoring the 4-byte region header and
alignment, so after growing, `heap_end = 131072` while the call returns
pointer 65540 with `next = 131076 > heap_end`: the last 4 bytes of the
returned region `[65540, 131076)` lie outside linear memory, where any
access traps. -/
theorem malloc_growth_overruns_heap_end :
    (malloc (reset_heap basePages1 0) 65532).1 = some 4 ∧
    (malloc (reset_heap basePages1 0) 65532).2.next
      = (malloc (reset_heap basePages1 0) 65532).2.heap_end ∧
    (malloc (malloc (reset_heap basePages1 0) 65532).2 65536).1 = some 65540 ∧
    (malloc (malloc (reset_heap basePages1 0) 65532).2 65536).2.heap_end
      = 131072 ∧
    (malloc (malloc (reset_heap basePages1 0) 65532).2 65536).2.next = 131076 ∧
    (malloc (malloc (reset_heap basePages1 0) 65532).2 65536).2.heap_end
      < (malloc (malloc (reset_heap basePages1 0) 65532).2 65536).2.next := by
  decide

/-- C9: a failed `realloc` of the most-recently-allocated block is not
atomic: the in-place path rewinds `next` before attempting the new
allocation, so when that allocation fails the block is left effectively
freed.  From a fresh capped one-page heap, `malloc 8` returns pointer 4 and
advances `next` to 12; `realloc 4 5242880` fails (NULL) but leaves
`next = 0` instead of 12, after which `malloc 8` returns pointer 4 again,
overlapping the supposedly still-live block. -/
theorem realloc_failure_rewinds_bump_pointer :
    (malloc (reset_heap basePages1Cap1 0) 8).1 = some 4 ∧
    (malloc (reset_heap basePages1Cap1 0) 8).2.next = 12 ∧
    (realloc (malloc (reset_heap basePages1Cap1 0) 8).2 4 5242880).1 = none ∧
    (realloc (malloc (reset_heap basePages1Cap1 0) 8).2 4 5242880).2.next = 0 ∧
    (malloc
      (realloc (malloc (reset_heap basePages1Cap1 0) 8).2 4 5242880).2 8).1
      = some 4 := by
  decide

/-- C10: starting from a heap reset to any 4-byte-aligned address, every
sequence of `malloc`, `calloc`, `realloc` and `free` calls (with `free` and
`realloc` applied to previously returned pointers, or null) keeps the bump
pointer `next` 4-byte aligned, and every non-null pointer returned by an
allocation call is 4-byte aligned. -/
theorem alloc_calls_preserve_alignment (s : AllocState) (a : Nat)
    (ops : List AllocOp) (ha : a % 4 = 0) (haM : a < SIZE_T_MOD) :
    (runOps ⟨reset_heap s a, []⟩ ops).st.next % 4 = 0 ∧
    ∀ p ∈ (runOps ⟨reset_heap s a, []⟩ ops).rets, p % 4 = 0 := by
  have h0 : AlignedRets ⟨reset_heap s a, []⟩ := ⟨ha, haM, by simp⟩
  obtain ⟨g1, _, g3⟩ := runOps_align ops ⟨reset_heap s a, []⟩ h0
  exact ⟨g1, fun p hp => (g3 p hp).1⟩

/-- C10 witness: a mixed call sequence from a heap reset to address 4 keeps
the bump pointer and all returned pointers 4-byte aligned. -/
theorem alloc_calls_preserve_alignment_witness :
    (4 % 4 = 0 ∧ 4 < SIZE_T_MOD) ∧
    ((runOps ⟨reset_heap basePages1 4, []⟩
        [AllocOp.mallocOp 5, AllocOp.callocOp 2 3, AllocOp.reallocOp 0 9,
         AllocOp.freeOp 1, AllocOp.mallocOp 1]).st.next % 4 = 0 ∧
     ∀ p ∈ (runOps ⟨reset_heap basePages1 4, []⟩
        [AllocOp.mallocOp 5, AllocOp.callocOp 2 3, AllocOp.reallocOp 0 9,
         AllocOp.freeOp 1, AllocOp.mallocOp 1]).rets, p % 4 = 0) :=
  ⟨⟨by decide, by decide⟩,
   alloc_calls_preserve_alignment basePages1 4
     [AllocOp.mallocOp 5, AllocOp.callocOp 2 3, AllocOp.reallocOp 0 9,
      AllocOp.freeOp 1, AllocOp.mallocOp 1] (by decide) (by decide)⟩

end TreeSitterWasm

namespace TreeSitterCursor

/-- C6: every tree-cursor step operation returns a `TreeCursorStep`, and a
`TreeCursorStep` is exactly one of the three mutually exclusive outcomes
`TreeCursorStepNone`, `TreeCursorStepHidden`, `TreeCursorStepVisible`. -/
theorem tree_cursor_step_trichotomy :
    ∀ r : TreeCursorStep,
      (r = TreeCursorStep.stepNone ∧ r ≠ TreeCursorStep.stepHidden ∧
        r ≠ TreeCursorStep.stepVisible) ∨
      (r = TreeCursorStep.stepHidden ∧ r ≠ TreeCursorStep.stepNone ∧
        r ≠ TreeCursorStep.stepVisible) ∨
      (r = TreeCursorStep.stepVisible ∧ r ≠ TreeCursorStep.stepNone ∧
        r ≠ TreeCursorStep.stepHidden) := by
  intro r
  cases r with
  | stepNone => exact Or.inl ⟨rfl, by decide, by decide⟩
  | stepHidden => exact Or.inr (Or.inl ⟨rfl, by decide, by decide⟩)
  | stepVisible => exact Or.inr (Or.inr ⟨rfl, by decide, by decide⟩)

end TreeSitterCursor

namespace TreeSitterWasmStore

/-- C7 counterexample: the scanner-instance calls the ABI declares are five
pairwise-distinct operations (create, destroy, scan, serialize,
deserialize), not four as the claim counts them. -/
theorem scanner_calls_count_not_four :
    scanner_instance_calls.Nodup ∧ scanner_instance_calls.length ≠ 4 := by
  decide

/-- C7 (amended): the sandboxed external-scanner ABI exposes exactly five
scanner-instance calls — create (returning the opaque instance handle),
destroy, scan (returning whether a token matched), serialize (returning its
byte count), deserialize — and no other scanner-instance operations. -/
theorem scanner_abi_exactly_five_calls :
    scanner_instance_calls.length = 5 ∧ scanner_instance_calls.Nodup ∧
    (∀ c : ScannerInstanceCall, c ∈ scanner_instance_calls) ∧
    returnsValue ScannerInstanceCall.create = true ∧
    returnsValue ScannerInstanceCall.scan = true ∧
    returnsValue ScannerInstanceCall.serialize = true ∧
    returnsValue ScannerInstanceCall.destroy = false ∧
    returnsValue ScannerInstanceCall.deserialize = false := by
  refine ⟨rfl, by decide, ?_, rfl, rfl, rfl, rfl, rfl⟩
  intro c
  cases c <;> decide

end TreeSitterWasmStore

